import Mathlib

/-!
Verification of the trail-relocation script (`src/Google Script/Trails list
management.js`) of the HiKingsRome repository.

The script keeps one master registry of hiking trails synchronized with five
difficulty-segregated category registries (Google Sheets, one per difficulty
tier, each with a `Tracks` tab).  We embed the script shallowly:

* a sheet cell is its value together with the observable "stored as text"
  number-format flag (the script only ever sets the `@STRING@` format, and
  only on the `lat`/`lon` columns);
* a registry is its list of data rows (the header row of the sheet is
  implicit: data row at list index `j` is sheet row `j + 2`) together with an
  `ok` flag recording whether `SpreadsheetApp.openById(...).getSheetByName`
  succeeds — the script treats an open failure (caught exception) and a
  missing tab identically, by logging and skipping;
* the five category registries form one state record, scanned in the declared
  order easy, very easy, intermediate, moderate, difficult;
* `processRow` returns the final registry state together with an optional
  error: `none` models a normal return, `some e` models an uncaught exception
  (the only uncaught path is opening/writing the target sheet).
-/

namespace HiKingsRome

/-- A spreadsheet cell as observed by the script: its value, and whether the
`@STRING@` ("stored as text") number format has been applied to it. -/
structure Cell where
  value : String
  asText : Bool
deriving DecidableEq

/-- One data row of a registry: the eleven columns
`id, name, lat, lon, difficulty, length, timing, distance, websiteLink,
maxParticipants, notes`.  Only `lat`/`lon` carry the format flag, because the
script never touches the number format of any other column. -/
structure TrailRow where
  id : String
  trailName : String
  lat : Cell
  lon : Cell
  difficulty : String
  length_ : String
  timing : String
  distance : String
  websiteLink : String
  maxPart : String
  notes : String
deriving DecidableEq

/-- A category registry: `ok` records whether
`SpreadsheetApp.openById(sheetId).getSheetByName('Tracks')` yields a sheet
(no exception, tab present); `rows` are its data rows below the header. -/
structure Registry where
  ok : Bool
  rows : List TrailRow
deriving DecidableEq

/-- The five category sheets, by difficulty tier. -/
inductive SheetKey where
  | easy
  | veryEasy
  | intermediate
  | moderate
  | difficult
deriving DecidableEq

/-- The joint state of the five category registries. -/
structure Registries where
  easy : Registry
  veryEasy : Registry
  intermediate : Registry
  moderate : Registry
  difficult : Registry
deriving DecidableEq

def Registries.get (s : Registries) : SheetKey → Registry
  | .easy => s.easy
  | .veryEasy => s.veryEasy
  | .intermediate => s.intermediate
  | .moderate => s.moderate
  | .difficult => s.difficult

def Registries.set (s : Registries) : SheetKey → Registry → Registries
  | .easy, r => { s with easy := r }
  | .veryEasy, r => { s with veryEasy := r }
  | .intermediate, r => { s with intermediate := r }
  | .moderate, r => { s with moderate := r }
  | .difficult, r => { s with difficult := r }

/-- The order in which `findAndRemoveRecordInAllSheets` visits the sheets:
`var sheetIds = [easySheetId, veryEasySheetId, intermediateSheetId,
moderateSheetId, difficultSheetId]`. -/
def sheetOrder : List SheetKey :=
  [.easy, .veryEasy, .intermediate, .moderate, .difficult]

/-- Inner loop of `findAndRemoveRecordInAllSheets` on one sheet's data rows:
find the first row `j` with `values[j][0] == id` and delete it
(`sheet.deleteRow(j + 2)`); `none` if no row matches. -/
def removeFirstRow (id : String) : List TrailRow → Option (List TrailRow)
  | [] => none
  | r :: rs =>
    if r.id = id then some rs
    else (removeFirstRow id rs).map (r :: ·)

/-- One iteration of the sheet loop in `findAndRemoveRecordInAllSheets`:
`none` when the sheet is skipped (open failure or missing tab — the
`try`/`catch` and the `!sheet` check — or `lastRow <= 1`, or no matching row);
`some` with the updated registry when a row was found and deleted. -/
def tryRemove (id : String) (reg : Registry) : Option Registry :=
  if !reg.ok then none
  else if reg.rows.isEmpty then none
  else (removeFirstRow id reg.rows).map fun rs => { reg with rows := rs }

/-- The `for (var i = 0; i < sheetIds.length; i++)` loop: visit the sheets in
order, return at the first successful removal. -/
def scanSheets (id : String) : List SheetKey → Registries → Option SheetKey × Registries
  | [], s => (none, s)
  | k :: ks, s =>
    match tryRemove id (s.get k) with
    | some r => (some k, s.set k r)
    | none => scanSheets id ks s

/-- `findAndRemoveRecordInAllSheets(id, easySheetId, veryEasySheetId,
intermediateSheetId, moderateSheetId, difficultSheetId)`: returns the sheet a
row was removed from (`some k`) or `null` (`none`), plus the resulting state
of the five registries. -/
def findAndRemoveRecordInAllSheets (id : String) (s : Registries) :
    Option SheetKey × Registries :=
  scanSheets id sheetOrder s

/-- JavaScript `string.toLowerCase()` (on the basic latin letters the script
compares against). -/
def jsToLowerCase (s : String) : String :=
  String.mk (s.data.map Char.toLower)

/-- `capitalizeFirstLetter(string)`:
`string.charAt(0).toUpperCase() + string.slice(1).toLowerCase()`. -/
def capitalizeFirstLetter (s : String) : String :=
  match s.data with
  | [] => ""
  | c :: cs => String.mk (c.toUpper :: cs.map Char.toLower)

/-- The row `[id, trailName, lat, lon, difficulty, length_, timing, distance,
websiteLink, maxPart, notes]` passed to `sheet.appendRow`; freshly appended
cells do not yet carry the text format. -/
def mkRow (id trailName lat lon difficulty length_ timing distance websiteLink
    maxPart notes : String) : TrailRow :=
  { id := id, trailName := trailName, lat := ⟨lat, false⟩, lon := ⟨lon, false⟩,
    difficulty := difficulty, length_ := length_, timing := timing,
    distance := distance, websiteLink := websiteLink, maxPart := maxPart,
    notes := notes }

/-- The two `setNumberFormat('@STRING@')` calls performed on columns 3 and 4
of a freshly appended row. -/
def setLatLonText (r : TrailRow) : TrailRow :=
  { r with lat := { r.lat with asText := true }, lon := { r.lon with asText := true } }

/-- The update branch of `updateOrInsertRow`: `setValue` on columns 2–11 of
the found row, with `setNumberFormat('@STRING@')` on columns 3 and 4.
Column 1 (the key) is not written. -/
def overwriteRow (old : TrailRow) (trailName lat lon difficulty length_ timing
    distance websiteLink maxPart notes : String) : TrailRow :=
  { old with
    trailName := trailName,
    lat := ⟨lat, true⟩,
    lon := ⟨lon, true⟩,
    difficulty := difficulty,
    length_ := length_,
    timing := timing,
    distance := distance,
    websiteLink := websiteLink,
    maxPart := maxPart,
    notes := notes }

/-- The search-and-update phase of `updateOrInsertRow`: find the first data
row with `values[i][0] == id` and overwrite it in place with `f`; `none` when
no row matches (`foundRow` stays `null`). -/
def upsertScan (id : String) (f : TrailRow → TrailRow) :
    List TrailRow → Option (List TrailRow)
  | [] => none
  | r :: rs =>
    if r.id = id then some (f r :: rs)
    else (upsertScan id f rs).map (r :: ·)

/-- `updateOrInsertRow(sheet, id, trailName, lat, lon, difficulty, length_,
timing, distance, websiteLink, maxPart, notes)` acting on the sheet's data
rows.  Empty sheet (`lastRow <= 1`): append plus text format on row 2.
Existing row: overwrite columns 2–11 in place.  Otherwise: append plus text
format on the new last row. -/
def updateOrInsertRow (rows : List TrailRow) (id trailName lat lon difficulty0
    length_ timing distance websiteLink maxPart notes : String) : List TrailRow :=
  let difficulty := capitalizeFirstLetter difficulty0
  if rows.isEmpty then
    [setLatLonText (mkRow id trailName lat lon difficulty length_ timing
      distance websiteLink maxPart notes)]
  else
    match upsertScan id (fun old => overwriteRow old trailName lat lon
        difficulty length_ timing distance websiteLink maxPart notes) rows with
    | some rows2 => rows2
    | none =>
      rows ++ [setLatLonText (mkRow id trailName lat lon difficulty length_
        timing distance websiteLink maxPart notes)]

/-- The five-way `if`/`else if` chain of `processRow` mapping the lowercased
difficulty to a target sheet; `none` is the final `else` branch
(`"Unsupported difficulty"`). -/
def classify (newDifficulty : String) : Option SheetKey :=
  if newDifficulty = "easy" then some .easy
  else if newDifficulty = "very easy" then some .veryEasy
  else if newDifficulty = "intermediate" then some .intermediate
  else if newDifficulty = "moderate" then some .moderate
  else if newDifficulty = "difficult" then some .difficult
  else none

/-- The eleven master-registry cells `processRow` reads from the edited row
(`masterSheet.getRange(row, 1..11).getValue()`), before any lowercasing. -/
structure MasterRecord where
  id : String
  trailName : String
  lat : String
  lon : String
  difficulty : String
  length_ : String
  timing : String
  distance : String
  websiteLink : String
  maxPart : String
  notes : String
deriving DecidableEq

/-- The placement phase of `processRow` (the body of the
`if (oldSheet != null || editedColumn == 5)` block): classify the lowercased
difficulty, open the target sheet, and upsert.  An unsupported difficulty is
a logged normal return; a target sheet that cannot be opened is an uncaught
exception, modelled as `some` error with the state unchanged (the exception
fires before any write). -/
def placeRecord (m : MasterRecord) (s : Registries) : Registries × Option String :=
  let newDifficulty := jsToLowerCase m.difficulty
  match classify newDifficulty with
  | none => (s, none)
  | some k =>
    let reg := s.get k
    if reg.ok then
      let rows2 := updateOrInsertRow reg.rows m.id m.trailName m.lat m.lon
        newDifficulty m.length_ m.timing m.distance m.websiteLink m.maxPart m.notes
      (s.set k { reg with rows := rows2 }, none)
    else
      (s, some "target sheet unavailable")

/-- `processRow(row, editedColumn)`, with the master row already read into
`m`: remove any stale copy from all five category registries, then place the
record if a stale copy was removed or the edited column is the difficulty
column (column 5). -/
def processRow (m : MasterRecord) (editedColumn : Nat) (s : Registries) :
    Registries × Option String :=
  let p := findAndRemoveRecordInAllSheets m.id s
  if p.1.isSome ∨ editedColumn = 5 then placeRecord m p.2
  else (p.2, none)

/-- Does some data row of `rows` have key `id`? -/
def containsId (id : String) (rows : List TrailRow) : Bool :=
  rows.any fun r => r.id == id

/-- Number of data rows of `rows` with key `id`. -/
def countId (id : String) (rows : List TrailRow) : Nat :=
  (rows.filter fun r => r.id == id).length

/-- Total number of data rows with key `id` across the five category
registries. -/
def Registries.countAll (s : Registries) (id : String) : Nat :=
  countId id s.easy.rows + countId id s.veryEasy.rows +
    countId id s.intermediate.rows + countId id s.moderate.rows +
    countId id s.difficult.rows

/-- All five category registries can be opened. -/
def allOk (s : Registries) : Bool :=
  s.easy.ok && s.veryEasy.ok && s.intermediate.ok && s.moderate.ok && s.difficult.ok

/-- The sheets visited strictly before `k` in the scan order. -/
def keysBefore (k : SheetKey) : List SheetKey :=
  sheetOrder.takeWhile (· ≠ k)

/-- Replacing a registry by an available empty one: the behavioural content
of "log and skip" in the scan. -/
def neutralizeAt (k : SheetKey) (s : Registries) : Registries :=
  s.set k ⟨true, []⟩

/-- The row that the placement phase appends when the target registry holds
no copy of the record: the master values, difficulty lowercased by
`processRow` and re-capitalized by `updateOrInsertRow`, with the text format
applied to `lat`/`lon`. -/
def wRow (m : MasterRecord) : TrailRow :=
  setLatLonText (mkRow m.id m.trailName m.lat m.lon
    (capitalizeFirstLetter (jsToLowerCase m.difficulty)) m.length_ m.timing
    m.distance m.websiteLink m.maxPart m.notes)

/-! ### Concrete fixtures for witnesses and counterexamples -/

/-- A data row with the given key and fixed filler values. -/
def sampleRow (i : String) : TrailRow :=
  ⟨i, "n", ⟨"41.7336", false⟩, ⟨"12.7011", false⟩, "easy", "l", "t", "d", "w", "m", "x"⟩

/-- An openable registry with the given data rows. -/
def okReg (rows : List TrailRow) : Registry := ⟨true, rows⟩

/-- All five registries openable and empty. -/
def stateEmpty : Registries := ⟨okReg [], okReg [], okReg [], okReg [], okReg []⟩

/-- Key `"1"` present in both the easy and the intermediate registry. -/
def stateDup : Registries :=
  ⟨okReg [sampleRow "1"], okReg [], okReg [sampleRow "1"], okReg [], okReg []⟩

/-- Key `"1"` in the easy registry and first in a two-row intermediate
registry. -/
def stateTwo : Registries :=
  ⟨okReg [sampleRow "1"], okReg [], okReg [sampleRow "1", sampleRow "2"],
    okReg [], okReg []⟩

/-- Key `"1"` present only in the intermediate registry. -/
def stateOne : Registries :=
  ⟨okReg [], okReg [], okReg [sampleRow "1"], okReg [], okReg []⟩

/-- The easy registry cannot be opened yet holds key `"1"`; the intermediate
registry also holds key `"1"`. -/
def stateBroken : Registries :=
  ⟨⟨false, [sampleRow "1"]⟩, okReg [], okReg [sampleRow "1"], okReg [], okReg []⟩

/-- A master record classified easy. -/
def mEasy : MasterRecord :=
  ⟨"1", "n", "41.7336", "12.7011", "Easy", "l", "t", "d", "w", "m", "x"⟩

/-- A master record classified intermediate. -/
def mInter : MasterRecord :=
  ⟨"1", "n", "41.7336", "12.7011", "intermediate", "l", "t", "d", "w", "m", "x"⟩

/-- A master record with the unsupported difficulty `"Hard"`. -/
def mHard : MasterRecord :=
  ⟨"1", "n", "41.7336", "12.7011", "Hard", "l", "t", "d", "w", "m", "x"⟩

/-! ### Character-level lemmas -/

theorem char_toNat_ofNat (m : Nat) (h : m.isValidChar) : (Char.ofNat m).toNat = m := by
  simp [Char.ofNat, dif_pos h, Char.ofNatAux, Char.toNat, UInt32.toNat, BitVec.toNat_ofNatLt]

theorem toUpper_toUpper (c : Char) : c.toUpper.toUpper = c.toUpper := by
  unfold Char.toUpper
  by_cases h : c.toNat ≥ 97 ∧ c.toNat ≤ 122
  · rw [if_pos h]
    have hv : (Char.toNat c - 32).isValidChar := by left; omega
    rw [char_toNat_ofNat _ hv, if_neg (by omega)]
  · rw [if_neg h, if_neg h]

theorem toLower_toLower (c : Char) : c.toLower.toLower = c.toLower := by
  unfold Char.toLower
  by_cases h : c.toNat ≥ 65 ∧ c.toNat ≤ 90
  · rw [if_pos h]
    have hv : (Char.toNat c + 32).isValidChar := by left; omega
    rw [char_toNat_ofNat _ hv, if_neg (by omega)]
  · rw [if_neg h, if_neg h]

/-! ### Counting and membership lemmas -/

theorem countId_nil (id : String) : countId id [] = 0 := rfl

theorem countId_cons (id : String) (r : TrailRow) (rs : List TrailRow) :
    countId id (r :: rs) = (if r.id = id then 1 else 0) + countId id rs := by
  by_cases h : r.id = id <;> simp [countId, List.filter_cons, h, Nat.add_comm]

theorem countId_append (id : String) (a b : List TrailRow) :
    countId id (a ++ b) = countId id a + countId id b := by
  simp [countId, List.filter_append]

theorem countId_eq_zero (id : String) (rows : List TrailRow) :
    countId id rows = 0 ↔ ∀ r ∈ rows, r.id ≠ id := by
  simp [countId, List.length_eq_zero, List.filter_eq_nil_iff]

theorem containsId_eq_false (id : String) (rows : List TrailRow) :
    containsId id rows = false ↔ ∀ r ∈ rows, r.id ≠ id := by
  simp [containsId, List.any_eq_false]

theorem containsId_eq_true (id : String) (rows : List TrailRow) :
    containsId id rows = true ↔ ∃ r ∈ rows, r.id = id := by
  simp [containsId, List.any_eq_true]

theorem containsId_false_iff_countId_zero (id : String) (rows : List TrailRow) :
    containsId id rows = false ↔ countId id rows = 0 := by
  rw [containsId_eq_false, countId_eq_zero]

/-! ### `removeFirstRow` lemmas -/

theorem removeFirstRow_eq_none (id : String) (rows : List TrailRow) :
    removeFirstRow id rows = none ↔ ∀ r ∈ rows, r.id ≠ id := by
  induction rows with
  | nil => simp [removeFirstRow]
  | cons r rs ih =>
    by_cases h : r.id = id
    · simp [removeFirstRow, h]
    · simp [removeFirstRow, h, ih]

theorem removeFirstRow_some (id : String) (rows rows2 : List TrailRow)
    (h : removeFirstRow id rows = some rows2) :
    ∃ pre mid post, rows = pre ++ mid :: post ∧ mid.id = id ∧
      (∀ x ∈ pre, x.id ≠ id) ∧ rows2 = pre ++ post := by
  induction rows generalizing rows2 with
  | nil => simp [removeFirstRow] at h
  | cons r rs ih =>
    by_cases hr : r.id = id
    · rw [removeFirstRow, if_pos hr] at h
      exact ⟨[], r, rs, by simp, hr, by simp, by simpa using h.symm⟩
    · rw [removeFirstRow, if_neg hr] at h
      rcases Option.map_eq_some'.mp h with ⟨rs2, hrs2, hcons⟩
      rcases ih rs2 hrs2 with ⟨pre, mid, post, hsplit, hmid, hpre, heq⟩
      refine ⟨r :: pre, mid, post, by simp [hsplit], hmid, ?_, by simp [hcons.symm, heq]⟩
      intro x hx
      rcases List.mem_cons.mp hx with hx | hx
      · exact hx ▸ hr
      · exact hpre x hx

theorem removeFirstRow_of_split (id : String) (pre post : List TrailRow) (mid : TrailRow)
    (hpre : ∀ x ∈ pre, x.id ≠ id) (hmid : mid.id = id) :
    removeFirstRow id (pre ++ mid :: post) = some (pre ++ post) := by
  induction pre with
  | nil => simp [removeFirstRow, hmid]
  | cons r rs ih =>
    have hr : r.id ≠ id := hpre r (by simp)
    rw [List.cons_append, removeFirstRow, if_neg hr,
      ih fun x hx => hpre x (List.mem_cons_of_mem r hx)]
    rfl

/-! ### `upsertScan` lemmas -/

theorem upsertScan_eq_none (id : String) (f : TrailRow → TrailRow) (rows : List TrailRow) :
    upsertScan id f rows = none ↔ ∀ r ∈ rows, r.id ≠ id := by
  induction rows with
  | nil => simp [upsertScan]
  | cons r rs ih =>
    by_cases h : r.id = id
    · simp [upsertScan, h]
    · simp [upsertScan, h, ih]

theorem upsertScan_some (id : String) (f : TrailRow → TrailRow)
    (rows rows2 : List TrailRow) (h : upsertScan id f rows = some rows2) :
    ∃ pre mid post, rows = pre ++ mid :: post ∧ mid.id = id ∧
      (∀ x ∈ pre, x.id ≠ id) ∧ rows2 = pre ++ f mid :: post := by
  induction rows generalizing rows2 with
  | nil => simp [upsertScan] at h
  | cons r rs ih =>
    by_cases hr : r.id = id
    · rw [upsertScan, if_pos hr] at h
      exact ⟨[], r, rs, by simp, hr, by simp, by simpa using h.symm⟩
    · rw [upsertScan, if_neg hr] at h
      rcases Option.map_eq_some'.mp h with ⟨rs2, hrs2, hcons⟩
      rcases ih rs2 hrs2 with ⟨pre, mid, post, hsplit, hmid, hpre, heq⟩
      refine ⟨r :: pre, mid, post, by simp [hsplit], hmid, ?_, by simp [hcons.symm, heq]⟩
      intro x hx
      rcases List.mem_cons.mp hx with hx | hx
      · exact hx ▸ hr
      · exact hpre x hx

theorem upsertScan_of_split (id : String) (f : TrailRow → TrailRow)
    (pre post : List TrailRow) (mid : TrailRow)
    (hpre : ∀ x ∈ pre, x.id ≠ id) (hmid : mid.id = id) :
    upsertScan id f (pre ++ mid :: post) = some (pre ++ f mid :: post) := by
  induction pre with
  | nil => simp [upsertScan, hmid]
  | cons r rs ih =>
    have hr : r.id ≠ id := hpre r (by simp)
    rw [List.cons_append, upsertScan, if_neg hr,
      ih fun x hx => hpre x (List.mem_cons_of_mem r hx)]
    rfl

/-! ### `Registries.get` / `Registries.set` laws -/

theorem get_set_same (s : Registries) (k : SheetKey) (r : Registry) :
    (s.set k r).get k = r := by
  cases k <;> rfl

theorem get_set_ne (s : Registries) (k k' : SheetKey) (r : Registry) (h : k' ≠ k) :
    (s.set k r).get k' = s.get k' := by
  cases k <;> cases k' <;> first
    | rfl
    | exact absurd rfl h

theorem set_set (s : Registries) (k : SheetKey) (a b : Registry) :
    (s.set k a).set k b = s.set k b := by
  cases k <;> rfl

theorem set_get_self (s : Registries) (k : SheetKey) :
    s.set k (s.get k) = s := by
  cases k <;> rfl

/-- `countAll` as a sum over the scan order. -/
theorem countAll_eq (s : Registries) (id : String) :
    s.countAll id =
      countId id (s.get .easy).rows + countId id (s.get .veryEasy).rows +
      countId id (s.get .intermediate).rows + countId id (s.get .moderate).rows +
      countId id (s.get .difficult).rows := rfl

theorem allOk_iff (s : Registries) :
    allOk s = true ↔ ∀ k, (s.get k).ok = true := by
  constructor
  · intro h k
    simp only [allOk, Bool.and_eq_true] at h
    cases k <;> simp [Registries.get, h.1, h.2]
  · intro h
    simp only [allOk, Bool.and_eq_true]
    exact ⟨⟨⟨⟨h .easy, h .veryEasy⟩, h .intermediate⟩, h .moderate⟩, h .difficult⟩

/-! ### `tryRemove` lemmas -/

theorem tryRemove_of_not_ok (id : String) (reg : Registry) (h : reg.ok = false) :
    tryRemove id reg = none := by
  simp [tryRemove, h]

theorem tryRemove_none_of_ok (id : String) (reg : Registry) (hok : reg.ok = true) :
    tryRemove id reg = none ↔ countId id reg.rows = 0 := by
  rw [tryRemove, if_neg (by simp [hok])]
  by_cases he : reg.rows.isEmpty
  · rw [if_pos he]
    simp [List.isEmpty_iff.mp he, countId]
  · rw [if_neg he]
    simp [Option.map_eq_none', removeFirstRow_eq_none, countId_eq_zero]

theorem tryRemove_some (id : String) (reg reg2 : Registry)
    (h : tryRemove id reg = some reg2) :
    reg.ok = true ∧ reg2.ok = reg.ok ∧
      removeFirstRow id reg.rows = some reg2.rows := by
  by_cases hok : reg.ok
  · rw [tryRemove, if_neg (by simp [hok])] at h
    by_cases he : reg.rows.isEmpty
    · rw [if_pos he] at h
      exact absurd h (by simp)
    · rw [if_neg he] at h
      rcases Option.map_eq_some'.mp h with ⟨rs, hrs, heq⟩
      rw [← heq]
      exact ⟨hok, rfl, hrs⟩
  · rw [tryRemove_of_not_ok id reg (by simpa using hok)] at h
    exact absurd h (by simp)

/-- A successful removal removes exactly one matching row. -/
theorem tryRemove_countId (id : String) (reg reg2 : Registry)
    (h : tryRemove id reg = some reg2) :
    countId id reg.rows = countId id reg2.rows + 1 := by
  rcases tryRemove_some id reg reg2 h with ⟨-, -, hrm⟩
  rcases removeFirstRow_some id reg.rows reg2.rows hrm with
    ⟨pre, mid, post, hsplit, hmid, hpre, heq⟩
  have hpre0 : countId id pre = 0 := (countId_eq_zero id pre).mpr hpre
  rw [hsplit, heq, countId_append, countId_append, countId_cons, if_pos hmid, hpre0]
  omega

/-! ### `scanSheets` lemmas -/

theorem scanSheets_cons_some (id : String) (k : SheetKey) (ks : List SheetKey)
    (s : Registries) (r : Registry) (hr : tryRemove id (s.get k) = some r) :
    scanSheets id (k :: ks) s = (some k, s.set k r) := by
  rw [scanSheets, hr]

theorem scanSheets_cons_none (id : String) (k : SheetKey) (ks : List SheetKey)
    (s : Registries) (hr : tryRemove id (s.get k) = none) :
    scanSheets id (k :: ks) s = scanSheets id ks s := by
  rw [scanSheets, hr]

theorem scanSheets_fst_none (id : String) (ks : List SheetKey) (s : Registries)
    (h : (scanSheets id ks s).1 = none) :
    (scanSheets id ks s).2 = s ∧ ∀ k ∈ ks, tryRemove id (s.get k) = none := by
  induction ks with
  | nil => simp [scanSheets]
  | cons k ks ih =>
    cases htr : tryRemove id (s.get k) with
    | some r => rw [scanSheets_cons_some id k ks s r htr] at h; simp at h
    | none =>
      rw [scanSheets_cons_none id k ks s htr] at h ⊢
      rcases ih h with ⟨h2, hall⟩
      refine ⟨h2, fun k' hk' => ?_⟩
      rcases List.mem_cons.mp hk' with hk' | hk'
      · exact hk' ▸ htr
      · exact hall k' hk'

theorem scanSheets_of_all_none (id : String) (ks : List SheetKey) (s : Registries)
    (h : ∀ k ∈ ks, tryRemove id (s.get k) = none) :
    scanSheets id ks s = (none, s) := by
  induction ks with
  | nil => rfl
  | cons k ks ih =>
    rw [scanSheets_cons_none id k ks s (h k (by simp))]
    exact ih fun k' hk' => h k' (List.mem_cons_of_mem k hk')

theorem scanSheets_some (id : String) (ks : List SheetKey) (s : Registries)
    (k : SheetKey) (h : (scanSheets id ks s).1 = some k) :
    k ∈ ks ∧ (∀ k' ∈ ks.takeWhile (· ≠ k), tryRemove id (s.get k') = none) ∧
      ∃ r, tryRemove id (s.get k) = some r ∧ (scanSheets id ks s).2 = s.set k r := by
  induction ks with
  | nil => simp [scanSheets] at h
  | cons k0 ks ih =>
    cases htr : tryRemove id (s.get k0) with
    | some r =>
      rw [scanSheets_cons_some id k0 ks s r htr] at h ⊢
      simp only at h
      cases h
      refine ⟨by simp, ?_, r, htr, rfl⟩
      simp [List.takeWhile]
    | none =>
      rw [scanSheets_cons_none id k0 ks s htr] at h ⊢
      rcases ih h with ⟨hmem, hpre, r, hr, hst⟩
      have hne : k0 ≠ k := by
        rintro rfl
        rw [htr] at hr
        exact absurd hr (by simp)
      refine ⟨List.mem_cons_of_mem k0 hmem, ?_, r, hr, hst⟩
      intro k' hk'
      rw [List.takeWhile_cons, if_pos (by simpa using hne)] at hk'
      rcases List.mem_cons.mp hk' with hk' | hk'
      · exact hk' ▸ htr
      · exact hpre k' hk'

/-- If every sheet other than `k` yields no removal and `k` yields one, the
scan stops at `k`. -/
theorem scanSheets_unique_hit (id : String) (ks : List SheetKey) (s : Registries)
    (k : SheetKey) (r : Registry) (hk : k ∈ ks)
    (hothers : ∀ k' ∈ ks, k' ≠ k → tryRemove id (s.get k') = none)
    (hr : tryRemove id (s.get k) = some r) :
    scanSheets id ks s = (some k, s.set k r) := by
  induction ks with
  | nil => simp at hk
  | cons k0 ks ih =>
    by_cases h0 : k0 = k
    · subst h0
      exact scanSheets_cons_some id k0 ks s r hr
    · rw [scanSheets_cons_none id k0 ks s (hothers k0 (by simp) h0)]
      have hk' : k ∈ ks := by
        rcases List.mem_cons.mp hk with h | h
        · exact absurd h.symm h0
        · exact h
      exact ih hk' fun k2 hk2 hne => hothers k2 (List.mem_cons_of_mem k0 hk2) hne

/-- The scan never changes a sheet's availability. -/
theorem scanSheets_get_ok (id : String) (ks : List SheetKey) (s : Registries)
    (k : SheetKey) :
    ((scanSheets id ks s).2.get k).ok = (s.get k).ok := by
  induction ks generalizing s with
  | nil => rfl
  | cons k0 ks ih =>
    cases htr : tryRemove id (s.get k0) with
    | some r =>
      rw [scanSheets_cons_some id k0 ks s r htr]
      rcases tryRemove_some id (s.get k0) r htr with ⟨hok, hok2, -⟩
      by_cases hk : k = k0
      · subst hk
        simp only [get_set_same]
        rw [hok2]
      · rw [get_set_ne s k0 k r hk]
    | none =>
      rw [scanSheets_cons_none id k0 ks s htr]
      exact ih s

/-! ### `findAndRemoveRecordInAllSheets` lemmas -/

theorem mem_sheetOrder (k : SheetKey) : k ∈ sheetOrder := by
  cases k <;> simp [sheetOrder]

theorem countAll_get_zero (s : Registries) (id : String) (h : s.countAll id = 0)
    (k : SheetKey) : countId id (s.get k).rows = 0 := by
  simp only [Registries.countAll] at h
  cases k <;> simp only [Registries.get] <;> omega

theorem findAndRemove_allOk (id : String) (s : Registries) (h : allOk s = true) :
    allOk (findAndRemoveRecordInAllSheets id s).2 = true := by
  rw [allOk_iff] at h ⊢
  intro k
  rw [findAndRemoveRecordInAllSheets, scanSheets_get_ok]
  exact h k

theorem findAndRemove_of_zero (id : String) (s : Registries) (hok : allOk s = true)
    (h0 : s.countAll id = 0) :
    findAndRemoveRecordInAllSheets id s = (none, s) := by
  apply scanSheets_of_all_none
  intro k _
  rw [tryRemove_none_of_ok id (s.get k) ((allOk_iff s).mp hok k)]
  exact countAll_get_zero s id h0 k

/-- Locate-and-Remove leaves no copy of `id` anywhere, provided every
registry can be opened and `id` occurred in at most one data row. -/
theorem findAndRemove_countAll_zero (id : String) (s : Registries)
    (hok : allOk s = true) (hu : s.countAll id ≤ 1) :
    (findAndRemoveRecordInAllSheets id s).2.countAll id = 0 := by
  cases hp : (findAndRemoveRecordInAllSheets id s).1 with
  | none =>
    rcases scanSheets_fst_none id sheetOrder s hp with ⟨h2, hall⟩
    rw [findAndRemoveRecordInAllSheets, h2]
    simp only [Registries.countAll]
    have hz : ∀ k, countId id (s.get k).rows = 0 := fun k =>
      (tryRemove_none_of_ok id (s.get k) ((allOk_iff s).mp hok k)).mp
        (hall k (mem_sheetOrder k))
    have h1 := hz .easy
    have h2 := hz .veryEasy
    have h3 := hz .intermediate
    have h4 := hz .moderate
    have h5 := hz .difficult
    simp only [Registries.get] at h1 h2 h3 h4 h5
    omega
  | some k =>
    rcases scanSheets_some id sheetOrder s k hp with ⟨-, -, r, hr, hst⟩
    have hc := tryRemove_countId id (s.get k) r hr
    rw [findAndRemoveRecordInAllSheets, hst]
    simp only [Registries.countAll] at hu ⊢
    cases k <;>
      simp only [Registries.get, Registries.set] at hc ⊢ <;>
      omega

theorem findAndRemove_isSome (id : String) (s : Registries) (hok : allOk s = true)
    (hpos : 0 < s.countAll id) :
    (findAndRemoveRecordInAllSheets id s).1.isSome = true := by
  cases hp : (findAndRemoveRecordInAllSheets id s).1 with
  | some k => rfl
  | none =>
    rcases scanSheets_fst_none id sheetOrder s hp with ⟨-, hall⟩
    have hz : ∀ k, countId id (s.get k).rows = 0 := fun k =>
      (tryRemove_none_of_ok id (s.get k) ((allOk_iff s).mp hok k)).mp
        (hall k (mem_sheetOrder k))
    have h1 := hz .easy
    have h2 := hz .veryEasy
    have h3 := hz .intermediate
    have h4 := hz .moderate
    have h5 := hz .difficult
    simp only [Registries.get] at h1 h2 h3 h4 h5
    simp only [Registries.countAll] at hpos
    omega

/-! ### `updateOrInsertRow` lemmas -/

theorem setLatLonText_id (r : TrailRow) : (setLatLonText r).id = r.id := rfl

theorem mkRow_id (id trailName lat lon difficulty length_ timing distance
    websiteLink maxPart notes : String) :
    (mkRow id trailName lat lon difficulty length_ timing distance websiteLink
      maxPart notes).id = id := rfl

/-- When no data row carries `id`, the upsert appends the new row at the end
(this covers both the empty-sheet branch and the not-found branch). -/
theorem updateOrInsertRow_of_absent (rows : List TrailRow)
    (id trailName lat lon difficulty0 length_ timing distance websiteLink
      maxPart notes : String) (h : countId id rows = 0) :
    updateOrInsertRow rows id trailName lat lon difficulty0 length_ timing
        distance websiteLink maxPart notes =
      rows ++ [setLatLonText (mkRow id trailName lat lon
        (capitalizeFirstLetter difficulty0) length_ timing distance websiteLink
        maxPart notes)] := by
  rw [updateOrInsertRow]
  by_cases he : rows.isEmpty
  · rw [if_pos he, List.isEmpty_iff.mp he]
    rfl
  · rw [if_neg he,
      (upsertScan_eq_none id _ rows).mpr ((countId_eq_zero id rows).mp h)]

theorem countId_singleton (id : String) (w : TrailRow) (hw : w.id = id) :
    countId id [w] = 1 := by
  simp [countId, hw]

theorem wRow_id (m : MasterRecord) : (wRow m).id = m.id := rfl

/-! ### `allOk` and `countAll` under `set` -/

theorem allOk_set_true (s : Registries) (k : SheetKey) (rows : List TrailRow)
    (h : allOk s = true) : allOk (s.set k ⟨true, rows⟩) = true := by
  rw [allOk_iff] at h ⊢
  intro k'
  by_cases hk : k' = k
  · subst hk
    rw [get_set_same]
  · rw [get_set_ne s k k' _ hk]
    exact h k'

theorem countAll_set_append (s : Registries) (k : SheetKey) (id : String)
    (w : TrailRow) (hw : w.id = id) :
    (s.set k ⟨true, (s.get k).rows ++ [w]⟩).countAll id = s.countAll id + 1 := by
  cases k <;>
    simp only [Registries.countAll, Registries.set, Registries.get,
      countId_append, countId_singleton id w hw] <;>
    omega

/-! ### `placeRecord` lemmas -/

theorem placeRecord_of_none (m : MasterRecord) (s : Registries)
    (hd : classify (jsToLowerCase m.difficulty) = none) :
    placeRecord m s = (s, none) := by
  simp [placeRecord, hd]

theorem placeRecord_of_some (m : MasterRecord) (s : Registries) (k : SheetKey)
    (hd : classify (jsToLowerCase m.difficulty) = some k)
    (hok : (s.get k).ok = true) :
    placeRecord m s =
      (s.set k ⟨true, updateOrInsertRow (s.get k).rows m.id m.trailName m.lat
        m.lon (jsToLowerCase m.difficulty) m.length_ m.timing m.distance
        m.websiteLink m.maxPart m.notes⟩, none) := by
  have hreg : s.get k = (⟨true, (s.get k).rows⟩ : Registry) := by
    rw [← hok]
  simp only [placeRecord, hd]
  rw [if_pos hok, hreg]

/-- Placement into an available registry holding no copy of the record
appends `wRow m` at the end. -/
theorem placeRecord_absent (m : MasterRecord) (s : Registries) (k : SheetKey)
    (hd : classify (jsToLowerCase m.difficulty) = some k)
    (hok : (s.get k).ok = true)
    (h0 : countId m.id (s.get k).rows = 0) :
    placeRecord m s = (s.set k ⟨true, (s.get k).rows ++ [wRow m]⟩, none) := by
  rw [placeRecord_of_some m s k hd hok,
    updateOrInsertRow_of_absent (s.get k).rows m.id m.trailName m.lat m.lon
      (jsToLowerCase m.difficulty) m.length_ m.timing m.distance m.websiteLink
      m.maxPart m.notes h0]
  rfl

/-! ### `processRow` lemmas -/

theorem processRow_guard_true (m : MasterRecord) (c : Nat) (s : Registries)
    (h : (findAndRemoveRecordInAllSheets m.id s).1.isSome = true ∨ c = 5) :
    processRow m c s = placeRecord m (findAndRemoveRecordInAllSheets m.id s).2 := by
  simp only [processRow]
  rw [if_pos]
  exact h

theorem processRow_guard_false (m : MasterRecord) (c : Nat) (s : Registries)
    (h1 : (findAndRemoveRecordInAllSheets m.id s).1 = none) (h2 : c ≠ 5) :
    processRow m c s = (s, none) := by
  have hstate : (findAndRemoveRecordInAllSheets m.id s).2 = s := by
    rw [findAndRemoveRecordInAllSheets] at h1 ⊢
    exact (scanSheets_fst_none m.id sheetOrder s h1).1
  simp only [processRow]
  rw [if_neg (by simp [h1, h2]), hstate]

/-- The full run of `processRow` when the removal-or-difficulty guard holds
and the normalized difficulty is supported: the record ends up appended to
the registry selected by `classify`, on top of the post-removal state. -/
theorem processRow_run (m : MasterRecord) (c : Nat) (s : Registries)
    (k : SheetKey) (hok : allOk s = true) (hu : s.countAll m.id ≤ 1)
    (hd : classify (jsToLowerCase m.difficulty) = some k)
    (hgo : (findAndRemoveRecordInAllSheets m.id s).1.isSome = true ∨ c = 5) :
    processRow m c s =
      ((findAndRemoveRecordInAllSheets m.id s).2.set k
        ⟨true, ((findAndRemoveRecordInAllSheets m.id s).2.get k).rows ++ [wRow m]⟩,
       none) := by
  rw [processRow_guard_true m c s hgo]
  have hok1 : allOk (findAndRemoveRecordInAllSheets m.id s).2 = true :=
    findAndRemove_allOk m.id s hok
  have h0 : (findAndRemoveRecordInAllSheets m.id s).2.countAll m.id = 0 :=
    findAndRemove_countAll_zero m.id s hok hu
  exact placeRecord_absent m _ k hd
    ((allOk_iff _).mp hok1 k)
    (countAll_get_zero _ m.id h0 k)

/-- Removing from the state just produced by a successful placement undoes
exactly that placement. -/
theorem tryRemove_hit (id : String) (rows0 : List TrailRow) (w : TrailRow)
    (hpre : countId id rows0 = 0) (hw : w.id = id) :
    tryRemove id ⟨true, rows0 ++ [w]⟩ = some ⟨true, rows0⟩ := by
  rw [tryRemove]
  have hempty : (rows0 ++ [w]).isEmpty = false := by
    simp
  simp only [Bool.not_true, Bool.false_eq_true, if_false, hempty]
  rw [removeFirstRow_of_split id rows0 [] w ((countId_eq_zero id rows0).mp hpre) hw]
  simp

theorem tryRemove_of_empty (id : String) (reg : Registry) (h : reg.rows = []) :
    tryRemove id reg = none := by
  rw [tryRemove, h]
  by_cases hok : reg.ok
  · rw [if_neg (by simp [hok]), if_pos (show ([] : List TrailRow).isEmpty = true from rfl)]
  · rw [if_pos (by simp [hok])]

/-- Running `processRow` again on the state a successful placement just
produced removes the placed row and puts it back, landing on the same
state. -/
theorem processRow_after_place (m : MasterRecord) (c : Nat) (t : Registries)
    (k : SheetKey) (hok : allOk t = true) (h0 : t.countAll m.id = 0)
    (hd : classify (jsToLowerCase m.difficulty) = some k) :
    processRow m c (t.set k ⟨true, (t.get k).rows ++ [wRow m]⟩) =
      (t.set k ⟨true, (t.get k).rows ++ [wRow m]⟩, none) := by
  have hz : ∀ k', countId m.id (t.get k').rows = 0 :=
    countAll_get_zero t m.id h0
  have hfr : findAndRemoveRecordInAllSheets m.id
      (t.set k ⟨true, (t.get k).rows ++ [wRow m]⟩) =
      (some k, (t.set k ⟨true, (t.get k).rows ++ [wRow m]⟩).set k
        ⟨true, (t.get k).rows⟩) := by
    rw [findAndRemoveRecordInAllSheets]
    apply scanSheets_unique_hit m.id sheetOrder _ k _ (mem_sheetOrder k)
    · intro k' _ hne
      rw [get_set_ne t k k' _ hne,
        tryRemove_none_of_ok m.id (t.get k') ((allOk_iff t).mp hok k')]
      exact hz k'
    · rw [get_set_same]
      exact tryRemove_hit m.id (t.get k).rows (wRow m) (hz k) (wRow_id m)
  rw [processRow_guard_true m c _ (by rw [hfr]; exact Or.inl rfl), hfr]
  rw [set_set]
  rw [placeRecord_absent m (t.set k ⟨true, (t.get k).rows⟩) k hd
    (by rw [get_set_same]) (by rw [get_set_same]; exact hz k)]
  rw [get_set_same, set_set]

/-- Behavioural equivalence between skipping a dead sheet and scanning an
available empty one. -/
theorem scanSheets_skip (id : String) (ks : List SheetKey) (s t : Registries)
    (k : SheetKey) (hst : ∀ k', k' ≠ k → s.get k' = t.get k')
    (hsk : tryRemove id (s.get k) = none)
    (htk : tryRemove id (t.get k) = none) :
    (scanSheets id ks s).1 = (scanSheets id ks t).1 ∧
      (scanSheets id ks s).2.get k = s.get k ∧
      ∀ k', k' ≠ k → (scanSheets id ks s).2.get k' = (scanSheets id ks t).2.get k' := by
  induction ks generalizing s t with
  | nil => exact ⟨rfl, rfl, fun k' hk' => hst k' hk'⟩
  | cons k0 ks ih =>
    by_cases h0 : k0 = k
    · subst h0
      rw [scanSheets_cons_none id k0 ks s hsk, scanSheets_cons_none id k0 ks t htk]
      exact ih s t hst hsk htk
    · have hgets : s.get k0 = t.get k0 := hst k0 h0
      cases htr : tryRemove id (s.get k0) with
      | some r =>
        rw [scanSheets_cons_some id k0 ks s r htr,
          scanSheets_cons_some id k0 ks t r (by rw [← hgets]; exact htr)]
        refine ⟨rfl, get_set_ne s k0 k r (fun h => h0 h.symm), fun k' hk' => ?_⟩
        by_cases hk0 : k' = k0
        · subst hk0
          rw [get_set_same, get_set_same]
        · rw [get_set_ne s k0 k' r hk0, get_set_ne t k0 k' r hk0]
          exact hst k' hk'
      | none =>
        rw [scanSheets_cons_none id k0 ks s htr,
          scanSheets_cons_none id k0 ks t (by rw [← hgets]; exact htr)]
        exact ih s t hst hsk htk

/-! ### Claim C1 -/

/-- Claim C1 is false as stated at this input: with key `"1"` present in both
the easy and the intermediate registry, `findAndRemoveRecordInAllSheets`
deletes the easy copy, stops, and leaves the intermediate copy in place, so
a category registry still contains a row with the given id after the call. -/
theorem claim1_cex :
    (findAndRemoveRecordInAllSheets "1" stateDup).1 = some SheetKey.easy ∧
    containsId "1"
      (((findAndRemoveRecordInAllSheets "1" stateDup).2.get .intermediate).rows) = true := by
  decide

/-- Claim C1, amended: when every category registry can be opened and the id
occurs in at most one data row across the five registries (the documented
uniqueness invariant), after `findAndRemoveRecordInAllSheets` returns no
category registry contains a data row whose key column equals the id. -/
theorem claim1_removal_completeness (id : String) (s : Registries)
    (hok : allOk s = true) (hu : s.countAll id ≤ 1) :
    ∀ k, containsId id (((findAndRemoveRecordInAllSheets id s).2.get k).rows) = false := by
  intro k
  rw [containsId_false_iff_countId_zero]
  exact countAll_get_zero _ id (findAndRemove_countAll_zero id s hok hu) k

theorem claim1_removal_completeness_witness :
    allOk stateOne = true ∧ stateOne.countAll "1" ≤ 1 ∧
    ∀ k, containsId "1" (((findAndRemoveRecordInAllSheets "1" stateOne).2.get k).rows) = false :=
  ⟨by decide, by decide, claim1_removal_completeness "1" stateOne (by decide) (by decide)⟩

/-! ### Claim C2 -/

/-- Claim C2 is false as stated at this input: an edit to column 2 of a
record that was never placed in any category registry completes without
error, yet its id appears in zero category registries — not exactly one. -/
theorem claim2_cex :
    processRow mEasy 2 stateEmpty = (stateEmpty, none) ∧
    stateEmpty.countAll mEasy.id = 0 := by
  decide

/-- Claim C2, amended: when every category registry is available, the id
occurs at most once across them, the record's normalized difficulty is one
of the five supported values, and the pass actually places (a stale copy
existed, or the edited column is the difficulty column 5), then `processRow`
completes without error and the id appears in exactly one category
registry — the one selected by the normalized difficulty. -/
theorem claim2_uniqueness (m : MasterRecord) (c : Nat) (s : Registries)
    (k : SheetKey) (hok : allOk s = true) (hu : s.countAll m.id ≤ 1)
    (hd : classify (jsToLowerCase m.difficulty) = some k)
    (hgo : 0 < s.countAll m.id ∨ c = 5) :
    ∃ t, processRow m c s = (t, none) ∧
      countId m.id (t.get k).rows = 1 ∧
      ∀ k2, k2 ≠ k → countId m.id (t.get k2).rows = 0 := by
  have hgo2 : (findAndRemoveRecordInAllSheets m.id s).1.isSome = true ∨ c = 5 := by
    rcases hgo with h | h
    · exact Or.inl (findAndRemove_isSome m.id s hok h)
    · exact Or.inr h
  have h0 : ∀ k2, countId m.id ((findAndRemoveRecordInAllSheets m.id s).2.get k2).rows = 0 :=
    countAll_get_zero _ m.id (findAndRemove_countAll_zero m.id s hok hu)
  refine ⟨_, processRow_run m c s k hok hu hd hgo2, ?_, ?_⟩
  · rw [get_set_same]
    show countId m.id (((findAndRemoveRecordInAllSheets m.id s).2.get k).rows ++ [wRow m]) = 1
    rw [countId_append, countId_singleton m.id (wRow m) (wRow_id m), h0 k]
  · intro k2 hk2
    rw [get_set_ne _ k k2 _ hk2]
    exact h0 k2

theorem claim2_uniqueness_witness :
    (allOk stateEmpty = true ∧ stateEmpty.countAll mEasy.id ≤ 1 ∧
      classify (jsToLowerCase mEasy.difficulty) = some SheetKey.easy ∧
      (0 < stateEmpty.countAll mEasy.id ∨ (5 : Nat) = 5)) ∧
    ∃ t, processRow mEasy 5 stateEmpty = (t, none) ∧
      countId mEasy.id (t.get .easy).rows = 1 ∧
      ∀ k2, k2 ≠ SheetKey.easy → countId mEasy.id (t.get k2).rows = 0 :=
  ⟨⟨by decide, by decide, by decide, Or.inr rfl⟩,
    claim2_uniqueness mEasy 5 stateEmpty .easy (by decide) (by decide) (by decide)
      (Or.inr rfl)⟩

/-! ### Claim C3 -/

/-- Claim C3 is false as stated at this input: with key `"1"` duplicated
across the easy and intermediate registries, the first pass overwrites the
intermediate copy in place (leaving it first of two rows) while the second
pass deletes and re-appends it (leaving it last), so running `processRow`
twice does not equal running it once. -/
theorem claim3_cex :
    processRow mInter 5 (processRow mInter 5 stateTwo).1 ≠
      processRow mInter 5 stateTwo := by
  decide

/-- Claim C3, amended: when every category registry is available and the id
occurs in at most one data row across them, running `processRow` twice with
the same arguments and no intervening master edit yields the same final
registry contents (and the same error status) as running it once. -/
theorem claim3_idempotent (m : MasterRecord) (c : Nat) (s : Registries)
    (hok : allOk s = true) (hu : s.countAll m.id ≤ 1) :
    processRow m c (processRow m c s).1 = processRow m c s := by
  by_cases hg : (findAndRemoveRecordInAllSheets m.id s).1.isSome = true ∨ c = 5
  · cases hd : classify (jsToLowerCase m.difficulty) with
    | none =>
      have hokt : allOk (findAndRemoveRecordInAllSheets m.id s).2 = true :=
        findAndRemove_allOk m.id s hok
      have h0 : (findAndRemoveRecordInAllSheets m.id s).2.countAll m.id = 0 :=
        findAndRemove_countAll_zero m.id s hok hu
      have hfirst : processRow m c s = ((findAndRemoveRecordInAllSheets m.id s).2, none) := by
        rw [processRow_guard_true m c s hg, placeRecord_of_none m _ hd]
      have hfr : findAndRemoveRecordInAllSheets m.id
          (findAndRemoveRecordInAllSheets m.id s).2 =
          (none, (findAndRemoveRecordInAllSheets m.id s).2) :=
        findAndRemove_of_zero m.id _ hokt h0
      have hsecond : processRow m c (findAndRemoveRecordInAllSheets m.id s).2 =
          ((findAndRemoveRecordInAllSheets m.id s).2, none) := by
        by_cases hc : c = 5
        · rw [processRow_guard_true m c _ (Or.inr hc), hfr]
          exact placeRecord_of_none m _ hd
        · exact processRow_guard_false m c _ (by rw [hfr]) hc
      rw [hfirst]
      exact hsecond
    | some k =>
      have hokt : allOk (findAndRemoveRecordInAllSheets m.id s).2 = true :=
        findAndRemove_allOk m.id s hok
      have h0 : (findAndRemoveRecordInAllSheets m.id s).2.countAll m.id = 0 :=
        findAndRemove_countAll_zero m.id s hok hu
      rw [processRow_run m c s k hok hu hd hg]
      exact processRow_after_place m c _ k hokt h0 hd
  · push_neg at hg
    have h1 : (findAndRemoveRecordInAllSheets m.id s).1 = none :=
      Option.not_isSome_iff_eq_none.mp hg.1
    have h := processRow_guard_false m c s h1 hg.2
    rw [h]
    exact h

theorem claim3_idempotent_witness :
    allOk stateOne = true ∧ stateOne.countAll mEasy.id ≤ 1 ∧
    processRow mEasy 5 (processRow mEasy 5 stateOne).1 = processRow mEasy 5 stateOne :=
  ⟨by decide, by decide, claim3_idempotent mEasy 5 stateOne (by decide) (by decide)⟩

/-! ### Claim C4 -/

/-- Claim C4 is false as stated at this input: with the unsupported
difficulty `"Hard"` and key `"1"` present in two registries, the pass
removes only the easy copy before aborting, so the record is not absent
from every category registry at the end of the pass. -/
theorem claim4_cex :
    (processRow mHard 5 stateDup).2 = none ∧
    containsId "1" (((processRow mHard 5 stateDup).1.get .intermediate).rows) = true := by
  decide

/-- Claim C4, amended: for a record whose lowercased difficulty is not one
of the five known classifications, `processRow` performs no upsert — for
every starting state, available or not, the final state is exactly the
state left by the removal step, with no error — and, when in addition all
registries are available and the id occurred in at most one data row, the
record is absent from every category registry at the end of the pass. -/
theorem claim4_unsupported (m : MasterRecord) (c : Nat) (s : Registries)
    (hd : classify (jsToLowerCase m.difficulty) = none) :
    processRow m c s = ((findAndRemoveRecordInAllSheets m.id s).2, none) ∧
    (allOk s = true → s.countAll m.id ≤ 1 →
      (findAndRemoveRecordInAllSheets m.id s).2.countAll m.id = 0) := by
  constructor
  · by_cases hg : (findAndRemoveRecordInAllSheets m.id s).1.isSome = true ∨ c = 5
    · rw [processRow_guard_true m c s hg, placeRecord_of_none m _ hd]
    · push_neg at hg
      have h1 : (findAndRemoveRecordInAllSheets m.id s).1 = none :=
        Option.not_isSome_iff_eq_none.mp hg.1
      have hstate : (findAndRemoveRecordInAllSheets m.id s).2 = s := by
        rw [findAndRemoveRecordInAllSheets] at h1 ⊢
        exact (scanSheets_fst_none m.id sheetOrder s h1).1
      rw [processRow_guard_false m c s h1 hg.2, hstate]
  · intro hok hu
    exact findAndRemove_countAll_zero m.id s hok hu

theorem claim4_unsupported_witness :
    classify (jsToLowerCase mHard.difficulty) = none ∧
    processRow mHard 5 stateBroken =
      ((findAndRemoveRecordInAllSheets mHard.id stateBroken).2, none) ∧
    (allOk stateOne = true → stateOne.countAll mHard.id ≤ 1 →
      (findAndRemoveRecordInAllSheets mHard.id stateOne).2.countAll mHard.id = 0) :=
  ⟨by decide, (claim4_unsupported mHard 5 stateBroken (by decide)).1,
    (claim4_unsupported mHard 5 stateOne (by decide)).2⟩

/-- When some data row carries `id`, the upsert overwrites the first such row
in place with `overwriteRow`, touching nothing else. -/
theorem updateOrInsertRow_of_present (rows : List TrailRow)
    (id trailName lat lon difficulty0 length_ timing distance websiteLink
      maxPart notes : String) (h : containsId id rows = true) :
    ∃ pre old post, rows = pre ++ old :: post ∧ (∀ x ∈ pre, x.id ≠ id) ∧
      old.id = id ∧
      updateOrInsertRow rows id trailName lat lon difficulty0 length_ timing
          distance websiteLink maxPart notes =
        pre ++ overwriteRow old trailName lat lon
          (capitalizeFirstLetter difficulty0) length_ timing distance
          websiteLink maxPart notes :: post := by
  cases hrm : removeFirstRow id rows with
  | none =>
    rcases containsId_eq_true id rows |>.mp h with ⟨r, hr, hrid⟩
    exact absurd hrid ((removeFirstRow_eq_none id rows).mp hrm r hr)
  | some rows2 =>
    rcases removeFirstRow_some id rows rows2 hrm with
      ⟨pre, mid, post, hsplit, hmid, hpre, -⟩
    refine ⟨pre, mid, post, hsplit, hpre, hmid, ?_⟩
    rw [updateOrInsertRow]
    simp only [hsplit, upsertScan_of_split id _ pre post mid hpre hmid]
    rw [if_neg (by simp)]

/-! ### Claim C5 -/

/-- Claim C5 (confirmed): on every write path of `updateOrInsertRow` —
insert into an empty registry, overwrite of an existing row, append to a
non-empty registry — the written row carries the given key and has its
`lat` and `lon` cells set to the given values with the stored-as-text
format applied. -/
theorem claim5_lat_lon_text (rows : List TrailRow)
    (id trailName lat lon difficulty0 length_ timing distance websiteLink
      maxPart notes : String) :
    ∃ r ∈ updateOrInsertRow rows id trailName lat lon difficulty0 length_
        timing distance websiteLink maxPart notes,
      r.id = id ∧ r.lat = ⟨lat, true⟩ ∧ r.lon = ⟨lon, true⟩ := by
  by_cases h : containsId id rows = true
  · rcases updateOrInsertRow_of_present rows id trailName lat lon difficulty0
      length_ timing distance websiteLink maxPart notes h with
      ⟨pre, old, post, hsplit, hpre, hold, heq⟩
    refine ⟨overwriteRow old trailName lat lon (capitalizeFirstLetter difficulty0)
      length_ timing distance websiteLink maxPart notes, ?_, hold, rfl, rfl⟩
    rw [heq]
    exact List.mem_append.mpr (Or.inr (List.mem_cons_self _ _))
  · have h0 : countId id rows = 0 := by
      rw [← containsId_false_iff_countId_zero]
      exact Bool.not_eq_true _ ▸ (Bool.eq_false_iff.mpr (fun hx => h hx))
    rw [updateOrInsertRow_of_absent rows id trailName lat lon difficulty0
      length_ timing distance websiteLink maxPart notes h0]
    refine ⟨setLatLonText (mkRow id trailName lat lon
      (capitalizeFirstLetter difficulty0) length_ timing distance websiteLink
      maxPart notes), ?_, rfl, rfl, rfl⟩
    simp

/-! ### Claim C6 -/

/-- Claim C6 (confirmed): `processRow` proceeds to target-registry selection
and upsert (the placement phase) exactly when the removal step returned a
sheet or the edited column is 5; in every other case it returns with all
five registries unchanged and no error. -/
theorem claim6_guard (m : MasterRecord) (c : Nat) (s : Registries) :
    processRow m c s =
      if (findAndRemoveRecordInAllSheets m.id s).1.isSome = true ∨ c = 5 then
        placeRecord m (findAndRemoveRecordInAllSheets m.id s).2
      else (s, none) := by
  by_cases hg : (findAndRemoveRecordInAllSheets m.id s).1.isSome = true ∨ c = 5
  · rw [if_pos hg]
    exact processRow_guard_true m c s hg
  · rw [if_neg hg]
    push_neg at hg
    exact processRow_guard_false m c s (Option.not_isSome_iff_eq_none.mp hg.1) hg.2

/-! ### Claim C7 -/

/-- Claim C7 is false as stated at this input: the easy registry holds a row
with key `"1"` but cannot be opened, so the scan does not stop at the first
registry containing the id — it skips the easy registry, removes the copy
found in the intermediate registry, and returns that one, with the easy copy
still present. -/
theorem claim7_cex :
    (findAndRemoveRecordInAllSheets "1" stateBroken).1 = some SheetKey.intermediate ∧
    containsId "1" (((findAndRemoveRecordInAllSheets "1" stateBroken).2.get .easy).rows) = true := by
  decide

/-- Claim C7, amended: when all five registries can be opened,
`findAndRemoveRecordInAllSheets` returns null exactly when no registry
contains a row with the id (changing nothing); otherwise it returns the
first registry in the declared scan order containing such a row, having
deleted exactly the first matching row of that registry and touched no other
registry. -/
theorem claim7_scan (id : String) (s : Registries) (hok : allOk s = true) :
    ((findAndRemoveRecordInAllSheets id s).1 = none ↔ s.countAll id = 0) ∧
    ((findAndRemoveRecordInAllSheets id s).1 = none →
      (findAndRemoveRecordInAllSheets id s).2 = s) ∧
    ∀ k, (findAndRemoveRecordInAllSheets id s).1 = some k →
      containsId id ((s.get k).rows) = true ∧
      (∀ k', k' ∈ keysBefore k → containsId id ((s.get k').rows) = false) ∧
      ∃ pre mid post, (s.get k).rows = pre ++ mid :: post ∧ mid.id = id ∧
        (∀ x ∈ pre, x.id ≠ id) ∧
        (findAndRemoveRecordInAllSheets id s).2 = s.set k ⟨true, pre ++ post⟩ := by
  refine ⟨⟨fun hn => ?_, fun h0 => by rw [findAndRemove_of_zero id s hok h0]⟩,
    fun hn => (scanSheets_fst_none id sheetOrder s hn).1, fun k hk => ?_⟩
  · rcases scanSheets_fst_none id sheetOrder s hn with ⟨-, hall⟩
    have hz : ∀ k, countId id (s.get k).rows = 0 := fun k =>
      (tryRemove_none_of_ok id (s.get k) ((allOk_iff s).mp hok k)).mp
        (hall k (mem_sheetOrder k))
    have h1 := hz .easy
    have h2 := hz .veryEasy
    have h3 := hz .intermediate
    have h4 := hz .moderate
    have h5 := hz .difficult
    simp only [Registries.get] at h1 h2 h3 h4 h5
    simp only [Registries.countAll]
    omega
  · rcases scanSheets_some id sheetOrder s k hk with ⟨-, hbefore, r, hr, hst⟩
    rcases tryRemove_some id (s.get k) r hr with ⟨hokk, hok2, hrm⟩
    rcases removeFirstRow_some id (s.get k).rows r.rows hrm with
      ⟨pre, mid, post, hsplit, hmid, hpre, heqrows⟩
    refine ⟨?_, ?_, pre, mid, post, hsplit, hmid, hpre, ?_⟩
    · apply (containsId_eq_true id _).mpr
      exact ⟨mid, by rw [hsplit]; simp, hmid⟩
    · intro k' hk'
      rw [keysBefore] at hk'
      rw [containsId_false_iff_countId_zero]
      exact (tryRemove_none_of_ok id (s.get k') ((allOk_iff s).mp hok k')).mp
        (hbefore k' hk')
    · have hr2 : r = (⟨true, pre ++ post⟩ : Registry) :=
        calc r = ⟨r.ok, r.rows⟩ := rfl
        _ = ⟨true, pre ++ post⟩ := by rw [hok2, hokk, heqrows]
      rw [findAndRemoveRecordInAllSheets, hst, hr2]

theorem claim7_scan_witness :
    allOk stateOne = true ∧
    (((findAndRemoveRecordInAllSheets "1" stateOne).1 = none ↔
        stateOne.countAll "1" = 0) ∧
      ((findAndRemoveRecordInAllSheets "1" stateOne).1 = none →
        (findAndRemoveRecordInAllSheets "1" stateOne).2 = stateOne) ∧
      ∀ k, (findAndRemoveRecordInAllSheets "1" stateOne).1 = some k →
        containsId "1" ((stateOne.get k).rows) = true ∧
        (∀ k', k' ∈ keysBefore k → containsId "1" ((stateOne.get k').rows) = false) ∧
        ∃ pre mid post, (stateOne.get k).rows = pre ++ mid :: post ∧
          mid.id = "1" ∧ (∀ x ∈ pre, x.id ≠ "1") ∧
          (findAndRemoveRecordInAllSheets "1" stateOne).2 =
            stateOne.set k ⟨true, pre ++ post⟩) :=
  ⟨by decide, claim7_scan "1" stateOne (by decide)⟩

/-! ### Claim C8 -/

/-- Claim C8 (confirmed): a registry that cannot be opened or has no data
rows is skipped without aborting the pass — it is left untouched, and the
scan result (which sheet matched, and the final contents of every other
registry) is the same as if that registry were an openable empty one. -/
theorem claim8_skip (id : String) (s : Registries) (k : SheetKey)
    (h : (s.get k).ok = false ∨ (s.get k).rows = []) :
    (findAndRemoveRecordInAllSheets id s).2.get k = s.get k ∧
    (findAndRemoveRecordInAllSheets id s).1 =
      (findAndRemoveRecordInAllSheets id (neutralizeAt k s)).1 ∧
    ∀ k', k' ≠ k →
      (findAndRemoveRecordInAllSheets id s).2.get k' =
        (findAndRemoveRecordInAllSheets id (neutralizeAt k s)).2.get k' := by
  have hsk : tryRemove id (s.get k) = none := by
    rcases h with h | h
    · exact tryRemove_of_not_ok id _ h
    · exact tryRemove_of_empty id _ h
  have htk : tryRemove id ((neutralizeAt k s).get k) = none := by
    rw [neutralizeAt, get_set_same]
    rfl
  have hst : ∀ k', k' ≠ k → s.get k' = (neutralizeAt k s).get k' := by
    intro k' hk'
    rw [neutralizeAt, get_set_ne s k k' _ hk']
  have hskip := scanSheets_skip id sheetOrder s (neutralizeAt k s) k hst hsk htk
  rw [findAndRemoveRecordInAllSheets, findAndRemoveRecordInAllSheets]
  exact ⟨hskip.2.1, hskip.1, hskip.2.2⟩

theorem claim8_skip_witness :
    ((stateBroken.get .easy).ok = false ∨ (stateBroken.get .easy).rows = []) ∧
    ((findAndRemoveRecordInAllSheets "1" stateBroken).2.get .easy =
        stateBroken.get .easy ∧
      (findAndRemoveRecordInAllSheets "1" stateBroken).1 =
        (findAndRemoveRecordInAllSheets "1" (neutralizeAt .easy stateBroken)).1 ∧
      ∀ k', k' ≠ SheetKey.easy →
        (findAndRemoveRecordInAllSheets "1" stateBroken).2.get k' =
          (findAndRemoveRecordInAllSheets "1" (neutralizeAt .easy stateBroken)).2.get k') :=
  ⟨Or.inl (by decide), claim8_skip "1" stateBroken .easy (Or.inl (by decide))⟩

/-! ### Claim C9 -/

/-- Claim C9 (confirmed): on the overwrite path of `updateOrInsertRow` the
first data row matching the id is replaced by `overwriteRow` applied to it —
which keeps the key column's value — while the rows before and after it are
unchanged, so no row is added or deleted. -/
theorem claim9_overwrite_frame (rows : List TrailRow)
    (id trailName lat lon difficulty0 length_ timing distance websiteLink
      maxPart notes : String) (h : containsId id rows = true) :
    ∃ pre old post, rows = pre ++ old :: post ∧ (∀ x ∈ pre, x.id ≠ id) ∧
      old.id = id ∧
      updateOrInsertRow rows id trailName lat lon difficulty0 length_ timing
          distance websiteLink maxPart notes =
        pre ++ overwriteRow old trailName lat lon
          (capitalizeFirstLetter difficulty0) length_ timing distance
          websiteLink maxPart notes :: post ∧
      (overwriteRow old trailName lat lon (capitalizeFirstLetter difficulty0)
        length_ timing distance websiteLink maxPart notes).id = old.id := by
  rcases updateOrInsertRow_of_present rows id trailName lat lon difficulty0
    length_ timing distance websiteLink maxPart notes h with
    ⟨pre, old, post, hsplit, hpre, hold, heq⟩
  exact ⟨pre, old, post, hsplit, hpre, hold, heq, rfl⟩

theorem claim9_overwrite_frame_witness :
    containsId "1" [sampleRow "2", sampleRow "1"] = true ∧
    ∃ pre old post,
      [sampleRow "2", sampleRow "1"] = pre ++ old :: post ∧
      (∀ x ∈ pre, x.id ≠ "1") ∧ old.id = "1" ∧
      updateOrInsertRow [sampleRow "2", sampleRow "1"] "1" "n2" "42" "13"
          "easy" "l" "t" "d" "w" "m" "x" =
        pre ++ overwriteRow old "n2" "42" "13" (capitalizeFirstLetter "easy")
          "l" "t" "d" "w" "m" "x" :: post ∧
      (overwriteRow old "n2" "42" "13" (capitalizeFirstLetter "easy")
        "l" "t" "d" "w" "m" "x").id = old.id :=
  ⟨by decide, claim9_overwrite_frame [sampleRow "2", sampleRow "1"] "1" "n2"
    "42" "13" "easy" "l" "t" "d" "w" "m" "x" (by decide)⟩

/-! ### Claim C10 -/

/-- Claim C10 (confirmed): `capitalizeFirstLetter` uppercases the first
character and lowercases every remaining character, it is idempotent, and
multi-word difficulty tiers keep only their first word capitalized — both
`"VERY EASY"` and `"very easy"` map to `"Very easy"`. -/
theorem claim10_capitalize :
    (∀ s : String, capitalizeFirstLetter (capitalizeFirstLetter s) =
      capitalizeFirstLetter s) ∧
    (∀ (c : Char) (cs : List Char), capitalizeFirstLetter (String.mk (c :: cs)) =
      String.mk (c.toUpper :: cs.map Char.toLower)) ∧
    capitalizeFirstLetter "VERY EASY" = "Very easy" ∧
    capitalizeFirstLetter "very easy" = "Very easy" := by
  refine ⟨fun s => ?_, fun c cs => rfl, by decide, by decide⟩
  obtain ⟨data⟩ := s
  cases data with
  | nil => rfl
  | cons c cs =>
    show String.mk (Char.toUpper (Char.toUpper c) ::
        (cs.map Char.toLower).map Char.toLower) =
      String.mk (Char.toUpper c :: cs.map Char.toLower)
    rw [toUpper_toUpper, List.map_map]
    have : Char.toLower ∘ Char.toLower = Char.toLower := by
      funext x
      exact toLower_toLower x
    rw [this]

end HiKingsRome
